import Mathlib

/-!
Verification of the intent-dispatch and tool-orchestration engine of the
langgraph hybrid-architecture repository.

Strings are modelled as lists of characters (`Str`).  JavaScript string
operations (`toLowerCase`, `includes`, `trim`) and the concrete regular
expressions used by the dispatcher are embedded as executable recursive
functions over `Str`; the embedding follows the JavaScript semantics
(leftmost match, greedy/lazy quantifiers with backtracking) restricted to
the ASCII behaviour exercised by the source.
-/

abbrev Str := List Char

/-- Coerce a Lean string literal to the `List Char` representation. -/
def str (s : String) : Str := s.data

/-- JavaScript `toLowerCase`, modelled on ASCII with `Char.toLower`. -/
def lower (s : Str) : Str := s.map Char.toLower

/-- Does `s` start with `p`?  (Model of anchored literal matching.) -/
def startsWith : Str → Str → Bool
  | _, [] => true
  | [], _ :: _ => false
  | c :: cs, d :: ds => c == d && startsWith cs ds

/-- Case-insensitive `startsWith`: the needle `p` is given in lower case and
each haystack character is lowered before comparison (the `/i` regex flag). -/
def startsWithCI : Str → Str → Bool
  | _, [] => true
  | [], _ :: _ => false
  | c :: cs, d :: ds => c.toLower == d && startsWithCI cs ds

/-- JavaScript `String.prototype.includes`: `needle` occurs contiguously in `s`. -/
def containsStr : Str → Str → Bool
  | [], needle => needle.isEmpty
  | c :: cs, needle => startsWith (c :: cs) needle || containsStr cs needle

/-- The ASCII part of the JavaScript regex class `\s`. -/
def isSpace (c : Char) : Bool :=
  c == ' ' || c == '\t' || c == '\n' || c == '\r' || c == '\x0b' || c == '\x0c'

/-- The JavaScript regex class `\w` (ASCII word character). -/
def isWordChar (c : Char) : Bool :=
  c.isAlpha || c.isDigit || c == '_'

/-- One of the four arithmetic operator characters of the calculator regex. -/
def isOp (c : Char) : Bool :=
  c == '+' || c == '-' || c == '*' || c == '/'

/-- JavaScript `String.prototype.trim` (ASCII whitespace). -/
def trim (s : Str) : Str :=
  ((s.dropWhile isSpace).reverse.dropWhile isSpace).reverse

/-- Maximal run of non-period characters: the greedy capture `([^.]+)`
(which succeeds only when nonempty, see `capC`). -/
def takeNonPeriod (s : Str) : Str := s.takeWhile (fun c => !(c == '.'))

/-! ### The dispatcher guards of `SimpleAgent.runAgent`

Each `needs…` definition is a direct transcription of the corresponding
boolean in `packages/agent/src/simple-agent.ts` (lines 62-89). -/

/-- Guard 1: `message` mentions file plus a search verb and no web cue. -/
def needsFileSearch (m : Str) : Bool :=
  let l := lower m
  containsStr l (str "file") &&
    (containsStr l (str "search") || containsStr l (str "find") ||
      containsStr l (str "look for")) &&
    !containsStr l (str "web search") &&
    !containsStr l (str "internet search")

/-- Guard 2: a search verb, provided guard 1 did not already fire. -/
def needsWebSearch (m : Str) : Bool :=
  let l := lower m
  (containsStr l (str "search") || containsStr l (str "find") ||
    containsStr l (str "look up") || containsStr l (str "web search") ||
    containsStr l (str "internet search")) &&
  !needsFileSearch m

/-- Test of the pattern digits, optional spaces, operator, optional spaces,
digits, anchored at the start of `s`.  Because the
digit, whitespace and operator character classes are disjoint, the greedy
quantifiers never need to backtrack and the matcher is deterministic. -/
def arithFrom (s : Str) : Bool :=
  let d := s.takeWhile Char.isDigit
  if d.isEmpty then false
  else
    match (s.dropWhile Char.isDigit).dropWhile isSpace with
    | [] => false
    | c :: rest =>
        isOp c && !((rest.dropWhile isSpace).takeWhile Char.isDigit).isEmpty

/-- Unanchored test of the arithmetic-expression regex (`RegExp.test`). -/
def arithTest : Str → Bool
  | [] => false
  | c :: cs => arithFrom (c :: cs) || arithTest cs

/-- Test of `calculate\s+\d` anchored at the start of `s` (applied to the
lowered message in the source). -/
def calcNumFrom (s : Str) : Bool :=
  startsWith s (str "calculate") &&
    (let r := s.drop 9
     !(r.takeWhile isSpace).isEmpty &&
       (match r.dropWhile isSpace with
        | c :: _ => c.isDigit
        | [] => false))

/-- Unanchored test of `calculate\s+\d`. -/
def calcNumTest : Str → Bool
  | [] => false
  | c :: cs => calcNumFrom (c :: cs) || calcNumTest cs

/-- Guard 3: code fence or a code keyword. -/
def needsCodeInterpreter (m : Str) : Bool :=
  containsStr m (str "```") ||
  containsStr (lower m) (str "code") ||
  containsStr (lower m) (str "execute") ||
  containsStr (lower m) (str "run code") ||
  containsStr (lower m) (str "python") ||
  containsStr (lower m) (str "javascript")

/-- Guard 4: calculation cue. -/
def needsCalculation (m : Str) : Bool :=
  containsStr (lower m) (str "calculate") ||
  containsStr (lower m) (str "math") ||
  arithTest m ||
  calcNumTest (lower m)

/-- Guard 5: weather cue. -/
def needsWeather (m : Str) : Bool :=
  containsStr (lower m) (str "weather") ||
  containsStr (lower m) (str "temperature")

/-- The six intents of the dispatcher, in guard order. -/
inductive Intent where
  | fileSearch
  | webSearch
  | codeRun
  | calculation
  | weather
  | general
deriving DecidableEq, Repr

/-- The first-match-wins cascade of `SimpleAgent.runAgent`. -/
def classify (m : Str) : Intent :=
  if needsFileSearch m then .fileSearch
  else if needsWebSearch m then .webSearch
  else if needsCodeInterpreter m then .codeRun
  else if needsCalculation m then .calculation
  else if needsWeather m then .weather
  else .general

/-! ### Leftmost-match scanning

`firstSome f` tries the single-position matcher `f` at every suffix of the
input, left to right, and returns the first success: the semantics of an
unanchored JavaScript regex match. -/

def firstSome (f : Str → Option Str) : Str → Option Str
  | [] => none
  | c :: cs =>
    match f (c :: cs) with
    | some r => some r
    | none => firstSome f cs

/-! ### The weather-location regex

Embedding of the JavaScript match `weather\s+(?:in\s+)?([^.]+)` with the
`/i` flag (simple-agent.ts line 195).  `capC` is the capture group
`([^.]+)`; `tryPlusC` matches one-or-more whitespace greedily and then the
capture, backtracking over the whitespace count; `tryG` is the optional
group `(?:in\s+)`; `matchTail` is the part of the pattern after the literal
`weather`. -/

/-- Capture `([^.]+)`: the maximal nonempty run of non-period characters. -/
def capC (s : Str) : Option Str :=
  let t := takeNonPeriod s
  if t.isEmpty then none else some t

/-- Match one-or-more whitespace characters (greedy, with backtracking)
followed by the capture group. -/
def tryPlusC : Str → Option Str
  | [] => none
  | c :: cs =>
    if isSpace c then
      match tryPlusC cs with
      | some r => some r
      | none => capC cs
    else none

/-- Match the group `in\s+` (case-insensitive) followed by the capture. -/
def tryG (s : Str) : Option Str :=
  if startsWithCI s (str "in") then tryPlusC (s.drop 2) else none

/-- Match the optional group then the capture: try `in\s+` first, and if
every alternative inside it fails take the group as empty. -/
def tryGC (s : Str) : Option Str :=
  match tryG s with
  | some r => some r
  | none => capC s

/-- Match whitespace-plus then the optional-`in` tail, backtracking over the
whitespace count (greedy, longest first). -/
def matchTail : Str → Option Str
  | [] => none
  | c :: cs =>
    if isSpace c then
      match matchTail cs with
      | some r => some r
      | none => tryGC cs
    else none

/-- Anchored attempt of the whole weather regex at the head of `s`. -/
def weatherLocAt (s : Str) : Option Str :=
  if startsWithCI s (str "weather") then matchTail (s.drop 7) else none

/-- `message.match(...)[1].trim()` for the weather-location regex: leftmost
match, captured group, trimmed. -/
def extractLocation (m : Str) : Option Str :=
  (firstSome weatherLocAt m).map trim

/-! ### The code-fence regex

Embedding of the JavaScript match of three backticks, an optional
word-character language tag, a newline, a lazily matched body and a closing
newline-plus-three-backticks (simple-agent.ts line 143).  The optional
`\w+` tag never backtracks usefully (word characters are never newlines),
so it is the maximal word-character run followed by a mandatory newline. -/

/-- Lazy body match: the characters before the first closing fence. -/
def findBody : Str → Option Str
  | [] => none
  | c :: cs =>
    if startsWith (c :: cs) (str "\n```") then some []
    else (findBody cs).map (fun b => c :: b)

/-- Anchored attempt of the fence regex at the head of `s`. -/
def fenceAt (s : Str) : Option Str :=
  if startsWith s (str "```") then
    match (s.drop 3).dropWhile isWordChar with
    | c :: rest => if c == '\n' then findBody rest else none
    | [] => none
  else none

/-- `message.match(...)[1].trim()` for the fence regex. -/
def extractCode (m : Str) : Option Str :=
  (firstSome fenceAt m).map trim

/-! ### The arithmetic-expression capture

Capture variant of `arithFrom` for the calculation branch
(simple-agent.ts line 167): the matched expression itself. -/

/-- Anchored capture of digits, spaces, operator, spaces, digits. -/
def arithCapAt (s : Str) : Option Str :=
  let d := s.takeWhile Char.isDigit
  if d.isEmpty then none
  else
    let r1 := s.dropWhile Char.isDigit
    let sp1 := r1.takeWhile isSpace
    match r1.dropWhile isSpace with
    | [] => none
    | c :: rest =>
      if isOp c then
        let sp2 := rest.takeWhile isSpace
        let d2 := (rest.dropWhile isSpace).takeWhile Char.isDigit
        if d2.isEmpty then none
        else some (d ++ sp1 ++ [c] ++ sp2 ++ d2)
      else none

/-- Leftmost capture of the arithmetic-expression regex. -/
def extractArith (m : Str) : Option Str :=
  firstSome arithCapAt m

/-! ### A model of JavaScript values

`JVal` models the dynamic values flowing through the adapter: JSON data,
`undefined`, and objects.  `fieldOf` models property access, which throws a
`TypeError` on `null`/`undefined` receivers and yields `undefined` on other
non-objects; `truthy` models JavaScript truthiness; `displayJ` models
string coercion in template literals. -/

inductive JVal where
  | jvoid
  | jnull
  | jbool (b : Bool)
  | jnum (n : Int)
  | jstr (s : Str)
  | jarr (xs : List JVal)
  | jobj (fields : List (Str × JVal))

/-- First-match lookup in an object's field list. -/
def jlookup (k : Str) : List (Str × JVal) → Option JVal
  | [] => none
  | (k', v) :: rest => if k' = k then some v else jlookup k rest

/-- Property access `o[k]`: throws on `null`/`undefined`, gives `undefined`
on other non-objects and on a missing key. -/
def fieldOf (o : JVal) (k : Str) : Except Str JVal :=
  match o with
  | .jvoid => .error (str "TypeError: cannot read properties of undefined")
  | .jnull => .error (str "TypeError: cannot read properties of null")
  | .jobj fs => .ok ((jlookup k fs).getD .jvoid)
  | _ => .ok .jvoid

/-- Strict equality `v === "lit"` of a value against a string literal. -/
def isStrVal (v : JVal) (s : Str) : Bool :=
  match v with
  | .jstr t => t = s
  | _ => false

/-- JavaScript truthiness. -/
def truthy : JVal → Bool
  | .jvoid => false
  | .jnull => false
  | .jbool b => b
  | .jnum n => n != 0
  | .jstr s => !s.isEmpty
  | .jarr _ => true
  | .jobj _ => true

/-- String coercion of a value in a template literal. -/
def displayJ : JVal → Str
  | .jvoid => str "undefined"
  | .jnull => str "null"
  | .jbool true => str "true"
  | .jbool false => str "false"
  | .jnum n => (toString n).data
  | .jstr s => s
  | .jarr xs => List.intercalate (str ",") (xs.attach.map fun x => displayJ x.1)
  | .jobj _ => str "[object Object]"
termination_by v => sizeOf v
decreasing_by
  simp_wf
  have := List.sizeOf_lt_of_mem x.2
  omega

/-! ### Capability registry (`packages/tools/src/types.ts`)

A `Tool` carries its name, description, advertised JSON schema and an
executor; a rejected promise is modelled as `Except.error` with the error
message.  The registry is a JavaScript `Map`: `set` overwrites an existing
key in place, keeping its position, and appends a new key at the end. -/

structure Tool where
  name : Str
  description : Str
  jsonSchema : JVal
  execute : JVal → Except Str JVal

structure ToolRegistry where
  tools : List (Str × Tool)

/-- `Map.prototype.set`: replace the first entry with this key in place,
else append. -/
def mapSet (k : Str) (v : Tool) : List (Str × Tool) → List (Str × Tool)
  | [] => [(k, v)]
  | (k', v') :: rest => if k' = k then (k, v) :: rest else (k', v') :: mapSet k v rest

/-- `Map.prototype.get`. -/
def mapGet (k : Str) : List (Str × Tool) → Option Tool
  | [] => none
  | (k', v) :: rest => if k' = k then some v else mapGet k rest

def ToolRegistry.register (r : ToolRegistry) (t : Tool) : ToolRegistry :=
  ⟨mapSet t.name t r.tools⟩

def ToolRegistry.get (r : ToolRegistry) (n : Str) : Option Tool :=
  mapGet n r.tools

def ToolRegistry.getAll (r : ToolRegistry) : List Tool :=
  r.tools.map (·.2)

/-- `getOpenAITools`: the registry described as function-tool declarations. -/
def ToolRegistry.getOpenAITools (r : ToolRegistry) : List JVal :=
  r.getAll.map fun t =>
    .jobj [(str "type", .jstr (str "function")),
           (str "function", .jobj [(str "name", .jstr t.name),
                                   (str "description", .jstr t.description),
                                   (str "parameters", t.jsonSchema)])]

/-! ### Response parsing (`ResponsesClient.parseResponse`)

The parser is embedded as a computation in `Except Str`: a thrown
`TypeError` is `Except.error`.  `JSON.parse` is a parameter `jp` (only its
success or failure is observable: both branches of the source `try` return
normally).  The normalized result mirrors `ResponsesResponse`. -/

structure TCRec where
  name : JVal
  arguments : JVal
  kind : Str

structure ParsedResponse where
  content : JVal
  toolCalls : List TCRec
  structuredOutput : Option JVal
  outputKind : Str

/-- `outputs.find(o => o.type === ty)`; property access inside the callback
can throw on a `null`/`undefined` element. -/
def findTyped (ty : Str) : List JVal → Except Str (Option JVal)
  | [] => pure none
  | o :: os => do
    let t ← fieldOf o (str "type")
    if isStrVal t ty then pure (some o) else findTyped ty os

/-- Does `v.length > 0` hold?  (`length` is `undefined` on non-arrays and
non-strings, and `undefined > 0` is false.) -/
def jlenPos : JVal → Bool
  | .jarr xs => !xs.isEmpty
  | .jstr s => !s.isEmpty
  | _ => false

/-- Index access `v[0]`. -/
def jindex0 : JVal → JVal
  | .jarr xs => xs.headD .jvoid
  | .jstr s => .jstr (s.take 1)
  | _ => .jvoid

/-- Decode a single tool-call entry by its declared kind; an entry whose
kind is not one of the five recognized hosted kinds is assumed to carry a
`function` payload, whose `name` access throws when it is absent. -/
def decodeCall (call : JVal) : Except Str TCRec := do
  let ty ← fieldOf call (str "type")
  if isStrVal ty (str "web_search") then do
    let ws ← fieldOf call (str "web_search")
    let q ← fieldOf ws (str "query")
    pure ⟨.jstr (str "web_search"), .jobj [(str "query", q)], str "web_search_call"⟩
  else if isStrVal ty (str "code_interpreter") then do
    let ci ← fieldOf call (str "code_interpreter")
    let c ← fieldOf ci (str "code")
    pure ⟨.jstr (str "code_interpreter"), .jobj [(str "code", c)], str "code_interpreter_call"⟩
  else if isStrVal ty (str "file_search") then do
    let fsv ← fieldOf call (str "file_search")
    let q ← fieldOf fsv (str "query")
    pure ⟨.jstr (str "file_search"), .jobj [(str "query", q)], str "file_search_call"⟩
  else if isStrVal ty (str "retrieval") then do
    let rv ← fieldOf call (str "retrieval")
    let q ← fieldOf rv (str "query")
    pure ⟨.jstr (str "retrieval"), .jobj [(str "query", q)], str "retrieval_call"⟩
  else if isStrVal ty (str "computer_use_preview") then do
    let cu ← fieldOf call (str "computer_use_preview")
    let a ← fieldOf cu (str "action")
    pure ⟨.jstr (str "computer_use_preview"), .jobj [(str "action", a)], str "computer_use_call"⟩
  else do
    let f ← fieldOf call (str "function")
    let n ← fieldOf f (str "name")
    let a ← fieldOf f (str "arguments")
    pure ⟨n, a, str "function_call"⟩

/-- The neutral result for an output with no usable content. -/
def noContentResult : ParsedResponse :=
  ⟨.jstr (str "No response content available"), [], none, str "unknown"⟩

/-- The tool-calls half of the parser, also reached by fall-through from
the message branch. -/
def parseToolCalls (outputs : List JVal) : Except Str ParsedResponse := do
  let tco ← findTyped (str "tool_calls") outputs
  match tco with
  | some t => do
    let tcs ← fieldOf t (str "tool_calls")
    if truthy tcs then
      match tcs with
      | .jarr calls => do
        let recs ← calls.mapM decodeCall
        pure ⟨.jstr (str "Tool calls: " ++
                List.intercalate (str ", ") (recs.map fun r => displayJ r.name)),
              recs, none, str "tool_calls"⟩
      | _ => .error (str "TypeError: map is not a function")
    else pure noContentResult
  | none => pure noContentResult

/-- `ResponsesClient.parseResponse`: normalize an upstream response value.
`jp` is the `JSON.parse` collaborator (success yields the structured
payload; failure selects the plain-text branch of the source `try`). -/
def parseResponse (jp : Str → Option JVal) (response : JVal) : Except Str ParsedResponse := do
  let output :=
    match response with
    | .jobj fs => (jlookup (str "output") fs).getD .jvoid
    | _ => .jvoid
  if !truthy response || !truthy output then
    pure ⟨.jstr (str "No response from OpenAI"), [], none, str "empty"⟩
  else
    let outputs := match output with | .jarr xs => xs | v => [v]
    let mo ← findTyped (str "message") outputs
    match mo with
    | some moV => do
      let contentV ← fieldOf moV (str "content")
      if truthy contentV && jlenPos contentV then
        let c0 := jindex0 contentV
        let ty ← fieldOf c0 (str "type")
        if isStrVal ty (str "output_text") then do
          let textV ← fieldOf c0 (str "text")
          match jp (displayJ textV) with
          | some parsed => pure ⟨textV, [], some parsed, str "message"⟩
          | none => pure ⟨textV, [], none, str "message"⟩
        else parseToolCalls outputs
      else parseToolCalls outputs
    | none => parseToolCalls outputs

/-! ### Lazy memoized provisioning (`ResponsesClient.getContainer`)

The source checks the mutable field, `await`s the collaborator's create
call, and only then stores the handle.  Under the JavaScript event loop the
`await` yields between the check and the store, so two concurrent first
calls interleave.  Each call is modelled as a task with three phases:
`ready` (about to check the field), `creating id` (create call issued and
resolved with `id`, store still pending), `finished id` (returned `id`).
`createCount` counts provisioning calls issued to the collaborator. -/

structure MemoState where
  containerId : Option Nat
  createCount : Nat
  nextId : Nat

inductive TaskPhase where
  | ready
  | creating (id : Nat)
  | finished (id : Nat)
deriving DecidableEq, Repr

/-- One atomic step of a `getContainer` call: the check-then-issue step or
the store-then-return step. -/
def stepTask (s : MemoState) : TaskPhase → MemoState × TaskPhase
  | .ready =>
    match s.containerId with
    | some i => (s, .finished i)
    | none => ({ s with createCount := s.createCount + 1, nextId := s.nextId + 1 },
               .creating s.nextId)
  | .creating i => ({ s with containerId := some i }, .finished i)
  | .finished i => (s, .finished i)

structure RaceWorld where
  mem : MemoState
  t1 : TaskPhase
  t2 : TaskPhase

/-- Scheduler step: run one step of task 1 (`true`) or task 2 (`false`). -/
def stepWorld (w : RaceWorld) (pick : Bool) : RaceWorld :=
  if pick then
    let p := stepTask w.mem w.t1
    ⟨p.1, p.2, w.t2⟩
  else
    let p := stepTask w.mem w.t2
    ⟨p.1, w.t1, p.2⟩

def runSched (w : RaceWorld) : List Bool → RaceWorld
  | [] => w
  | b :: bs => runSched (stepWorld w b) bs

/-- Fresh adapter instance: no handle, no provisioning calls yet. -/
def initWorld : RaceWorld := ⟨⟨none, 0, 0⟩, .ready, .ready⟩

/-! ### The tool-resolution loop (`AgentAPI.runAgent`, agent/src/index.ts)

For each tool call: registry first, then the two workflow names, then the
three hosted names, else the inline unknown-tool error object.  There is no
try/catch around `tool.execute` (and `trackPerformance` rethrows), so an
executor rejection aborts the loop; the loop is therefore a computation in
`Except Str`.  The workflow handlers `wf`/`sf` are collaborator parameters
(they call the upstream model). -/

structure ToolCallIn where
  name : Str
  arguments : JVal

/-- The inline result for an unresolved tool name. -/
def unknownToolResult (n : Str) : JVal :=
  .jobj [(str "error", .jstr (str "Unknown tool: " ++ n))]

def resolveStep (reg : ToolRegistry) (wf sf : JVal → Except Str JVal)
    (tc : ToolCallIn) : Except Str JVal :=
  match reg.get tc.name with
  | some t => t.execute tc.arguments
  | none =>
    if tc.name = str "weather_workflow" then wf tc.arguments
    else if tc.name = str "search_workflow" then sf tc.arguments
    else if tc.name = str "web_search" then do
      let q ← fieldOf tc.arguments (str "query")
      pure (.jobj [(str "message", .jstr (str "Web search performed")), (str "query", q)])
    else if tc.name = str "code_interpreter" then do
      let c ← fieldOf tc.arguments (str "code")
      pure (.jobj [(str "message", .jstr (str "Code interpreter executed")), (str "code", c)])
    else if tc.name = str "file_search" then do
      let q ← fieldOf tc.arguments (str "query")
      pure (.jobj [(str "message", .jstr (str "File search performed")), (str "query", q)])
    else pure (unknownToolResult tc.name)

def runToolLoop (reg : ToolRegistry) (wf sf : JVal → Except Str JVal) :
    List ToolCallIn → Except Str (List JVal)
  | [] => pure []
  | tc :: rest => do
    let r ← resolveStep reg wf sf tc
    let rs ← runToolLoop reg wf sf rest
    pure (r :: rs)

/-- A name that resolves in none of the three tables. -/
def unknownName (reg : ToolRegistry) (n : Str) : Prop :=
  reg.get n = none ∧ n ≠ str "weather_workflow" ∧ n ≠ str "search_workflow" ∧
  n ≠ str "web_search" ∧ n ≠ str "code_interpreter" ∧ n ≠ str "file_search"

/-! ### Concrete tools (`packages/tools/src`)

The calculator parses its arguments with zod (a non-string or missing
`expression` throws), evaluates the expression with JavaScript `eval`
inside a try, and rethrows failures as
`Invalid mathematical expression: <expr>`.  Arithmetic evaluation itself is
a parameter `evalFn` (`none` models an `eval` throw, e.g. on a syntax
error); rounding of the numeric result is irrelevant to the claims and the
result value is passed through. -/

def calculatorExecute (evalFn : Str → Option Int) (args : JVal) : Except Str JVal :=
  match args with
  | .jobj fs =>
    match (jlookup (str "expression") fs).getD .jvoid with
    | .jstr e =>
      match evalFn e with
      | some v => pure (.jobj [(str "expression", .jstr e), (str "result", .jnum v)])
      | none => .error (str "Invalid mathematical expression: " ++ e)
    | _ => .error (str "ZodError: expression must be a string")
  | _ => .error (str "ZodError: expected object")

/-- The mock weather payload returned by the weather tool's executor. -/
def weatherPayload (loc unit : Str) : JVal :=
  .jobj [(str "location", .jstr loc),
         (str "temperature", .jnum (if unit = str "celsius" then 22 else 72)),
         (str "unit", .jstr unit),
         (str "condition", .jstr (str "Sunny")),
         (str "humidity", .jstr (str "65%")),
         (str "windSpeed", .jstr (str "5 mph"))]

/-- The weather tool's executor: zod-validated location (string, required)
and unit (enum, optional, default fahrenheit), then the mock payload. -/
def weatherExecute (args : JVal) : Except Str JVal :=
  match args with
  | .jobj fs =>
    match (jlookup (str "location") fs).getD .jvoid with
    | .jstr loc =>
      match (jlookup (str "unit") fs).getD .jvoid with
      | .jvoid => pure (weatherPayload loc (str "fahrenheit"))
      | .jstr u =>
        if u = str "celsius" || u = str "fahrenheit" then pure (weatherPayload loc u)
        else .error (str "ZodError: invalid enum value")
      | _ => .error (str "ZodError: invalid unit")
    | _ => .error (str "ZodError: location must be a string")
  | _ => .error (str "ZodError: expected object")

/-- `weatherTool.jsonSchema`: note `unit` is a property but only
`location` is in `required`. -/
def weatherJsonSchema : JVal :=
  .jobj [(str "type", .jstr (str "object")),
         (str "properties", .jobj [
            (str "location", .jobj [(str "type", .jstr (str "string")),
              (str "description", .jstr (str "The city and state, e.g. San Francisco, CA"))]),
            (str "unit", .jobj [(str "type", .jstr (str "string")),
              (str "enum", .jarr [.jstr (str "celsius"), .jstr (str "fahrenheit")]),
              (str "default", .jstr (str "fahrenheit"))])]),
         (str "required", .jarr [.jstr (str "location")])]

/-- `calculatorTool.jsonSchema`. -/
def calculatorJsonSchema : JVal :=
  .jobj [(str "type", .jstr (str "object")),
         (str "properties", .jobj [
            (str "expression", .jobj [(str "type", .jstr (str "string")),
              (str "description", .jstr (str "Mathematical expression to evaluate, e.g. 2 + 2 * 3"))])]),
         (str "required", .jarr [.jstr (str "expression")])]

def weatherToolM : Tool :=
  ⟨str "get_weather", str "Get the current weather information for a specific location",
   weatherJsonSchema, weatherExecute⟩

def calculatorToolM (evalFn : Str → Option Int) : Tool :=
  ⟨str "calculate", str "Perform mathematical calculations",
   calculatorJsonSchema, calculatorExecute evalFn⟩

/-! ### Declared tool schemas (`ResponsesClient.buildTools`, `fixSchemaForResponses`) -/

/-- Insert-or-overwrite a field, as in an object spread ending in that key. -/
def setField (k : Str) (v : JVal) : List (Str × JVal) → List (Str × JVal)
  | [] => [(k, v)]
  | (k', v') :: rest => if k' = k then (k, v) :: rest else (k', v') :: setField k v rest

/-- `fixSchemaForResponses`: add `additionalProperties: false` to object
schemas with properties; everything else is returned unchanged.  The
`required` array is not touched. -/
def fixSchemaForResponses (schema : JVal) : JVal :=
  match schema with
  | .jobj fs =>
    if isStrVal ((jlookup (str "type") fs).getD .jvoid) (str "object") &&
        truthy ((jlookup (str "properties") fs).getD .jvoid) then
      .jobj (setField (str "additionalProperties") (.jbool false) fs)
    else .jobj fs
  | v => v

/-- The function-tool declarations built from the registry in `buildTools`:
fixed schema plus `strict: true`. -/
def buildRegistryTools (r : ToolRegistry) : List JVal :=
  r.getAll.map fun t =>
    .jobj [(str "type", .jstr (str "function")),
           (str "name", .jstr t.name),
           (str "parameters", fixSchemaForResponses t.jsonSchema),
           (str "strict", .jbool true)]

/-- The `parameters` member of a declared tool. -/
def paramsOf (decl : JVal) : JVal :=
  match decl with
  | .jobj fs => (jlookup (str "parameters") fs).getD .jvoid
  | _ => .jvoid

/-- Does a parameter schema carry `additionalProperties: false`? -/
def addlPropsFalse (p : JVal) : Bool :=
  match p with
  | .jobj ps =>
    match jlookup (str "additionalProperties") ps with
    | some (.jbool false) => true
    | _ => false
  | _ => false

/-- The property names of a parameter schema. -/
def propNames (p : JVal) : List Str :=
  match p with
  | .jobj ps =>
    match jlookup (str "properties") ps with
    | some (.jobj props) => props.map (·.1)
    | _ => []
  | _ => []

/-- The entries of the `required` array of a parameter schema. -/
def requiredNames (p : JVal) : List Str :=
  match p with
  | .jobj ps =>
    match jlookup (str "required") ps with
    | some (.jarr xs) => xs.filterMap fun v => match v with | .jstr s => some s | _ => none
    | _ => []
  | _ => []

/-- Does the `required` array list every declared property? -/
def allPropsRequired (p : JVal) : Bool :=
  (propNames p).all fun n => (requiredNames p).contains n

/-! ### Optional generation parameters (`AgentAPI.runAgent` option spreads
composed with `ResponsesClient.ask`)

A conditional spread on `x !== undefined` contributes the key exactly when
the option is present, so each optional field is an `Option`; `askPayload`
is the key-value list of the outbound `responses.create` payload (the
`tools` value is built separately and is irrelevant here). -/

structure AgentOptions where
  temperature : Option JVal
  maxOutputTokens : Option JVal
  topP : Option JVal
  topLogprobs : Option JVal
  parallelToolCalls : Option Bool
  structuredOutput : Option (Str × JVal)

structure ResponsesRequestM where
  input : Str
  tools : List JVal
  responseFormat : Option (Str × JVal)
  temperature : Option JVal
  maxOutputTokens : Option JVal
  topP : Option JVal
  topLogprobs : Option JVal
  parallelToolCalls : Option Bool

/-- The two workflow function tools declared by `AgentAPI.runAgent`. -/
def agentWorkflowTools : List JVal :=
  [.jobj [(str "type", .jstr (str "function")),
          (str "name", .jstr (str "weather_workflow")),
          (str "parameters", .jobj [(str "type", .jstr (str "object")),
            (str "properties", .jobj [(str "location", .jobj [
              (str "type", .jstr (str "string")),
              (str "description", .jstr (str "The location to get weather for"))])]),
            (str "required", .jarr [.jstr (str "location")])])],
   .jobj [(str "type", .jstr (str "function")),
          (str "name", .jstr (str "search_workflow")),
          (str "parameters", .jobj [(str "type", .jstr (str "object")),
            (str "properties", .jobj [(str "query", .jobj [
              (str "type", .jstr (str "string")),
              (str "description", .jstr (str "The search query"))])]),
            (str "required", .jarr [.jstr (str "query")])])]]

/-- `AgentAPI.runAgent`: build the `ask` request from the caller's options
via the conditional spreads. -/
def buildAgentRequest (message : Str) (o : AgentOptions) : ResponsesRequestM :=
  ⟨message, agentWorkflowTools, o.structuredOutput,
   o.temperature, o.maxOutputTokens, o.topP, o.topLogprobs, o.parallelToolCalls⟩

def optEntry (k : Str) (v : Option JVal) : List (Str × JVal) :=
  match v with
  | some x => [(k, x)]
  | none => []

/-- The key-value pairs of the outbound `responses.create` payload built by
`ResponsesClient.ask` from a request; `tools` is the separately built tool
array. -/
def askPayload (model : Str) (req : ResponsesRequestM) (tools : List JVal) :
    List (Str × JVal) :=
  [(str "model", .jstr model), (str "input", .jstr req.input),
   (str "tools", .jarr tools)] ++
  (match req.responseFormat with
   | some p =>
     [(str "text", .jobj [(str "format", .jobj [(str "name", .jstr p.1),
        (str "type", .jstr (str "json_schema")), (str "schema", p.2)])])]
   | none => []) ++
  optEntry (str "temperature") req.temperature ++
  optEntry (str "max_output_tokens") req.maxOutputTokens ++
  optEntry (str "top_p") req.topP ++
  optEntry (str "top_logprobs") req.topLogprobs ++
  (match req.parallelToolCalls with
   | some b => [(str "parallel_tool_calls", .jbool b)]
   | none => [])

/-! ### `SimpleAgent.runAgent` (simple-agent.ts lines 54-237)

The whole body runs inside a try whose catch converts any escaping
exception into an apology response with the `error` field set.  Each tool
branch wraps only its `execute`-and-format section in its own try, whose
catch writes an explanation into the response text and continues normally,
so branch-level failures produce an `Except.ok`.  The environment carries
the registry, the model call (the only collaborator call outside a branch
try) and the query-extraction matchers of the file/web branches, whose
output shape alone matters to the claims settled here.  The `toolCalls` /
`toolResults` observability arrays of the source response are omitted from
the model. -/

structure SimpleEnv where
  reg : ToolRegistry
  modelInvoke : Str → Except Str Str
  fileQueryExtract : Str → Option Str
  webQueryExtract : Str → Option Str

structure SimpleResp where
  response : Str
  error : Option Str

/-- `availableTools.find(t => t.name === n)`. -/
def findToolByName (reg : ToolRegistry) (n : Str) : Option Tool :=
  reg.getAll.find? fun t => t.name == n

/-- The file-search branch (returns the response text; total because every
exception inside it is caught by the branch's own catch). -/
def fileBranch (env : SimpleEnv) (m : Str) : Str :=
  match env.fileQueryExtract m with
  | some q =>
    match findToolByName env.reg (str "file_search") with
    | some t =>
      match (do
        let r ← t.execute (.jobj [(str "query", .jstr q)])
        let succ ← fieldOf r (str "success")
        if truthy succ then do
          let res ← fieldOf r (str "results")
          pure (str "File search results for \"" ++ q ++ str "\": " ++ displayJ res)
        else do
          let err ← fieldOf r (str "error")
          pure (str "File search failed: " ++ displayJ err) : Except Str Str) with
      | .ok s => s
      | .error e => str "I couldn't search files: " ++ e
    | none => str ""
  | none => str "I couldn't understand what you want me to search for in files. Please provide a search query."

/-- The web-search branch. -/
def webBranch (env : SimpleEnv) (m : Str) : Str :=
  match env.webQueryExtract m with
  | some q =>
    match findToolByName env.reg (str "web_search") with
    | some t =>
      match (do
        let r ← t.execute (.jobj [(str "query", .jstr q)])
        let succ ← fieldOf r (str "success")
        if truthy succ then do
          let res ← fieldOf r (str "results")
          pure (str "Web search results for \"" ++ q ++ str "\": " ++ displayJ res)
        else do
          let err ← fieldOf r (str "error")
          pure (str "Web search failed: " ++ displayJ err) : Except Str Str) with
      | .ok s => s
      | .error e => str "I couldn't search the web: " ++ e
    | none => str ""
  | none => str "I couldn't understand what you want me to search for. Please provide a search query."

/-- The code-execution branch, using the fence extraction. -/
def codeBranch (env : SimpleEnv) (m : Str) : Str :=
  match extractCode m with
  | some code =>
    match findToolByName env.reg (str "code_interpreter") with
    | some t =>
      match (do
        let r ← t.execute (.jobj [(str "code", .jstr code)])
        let succ ← fieldOf r (str "success")
        if truthy succ then do
          let res ← fieldOf r (str "results")
          pure (str "Code execution results: " ++ displayJ res)
        else do
          let err ← fieldOf r (str "error")
          pure (str "Code execution failed: " ++ displayJ err) : Except Str Str) with
      | .ok s => s
      | .error e => str "I couldn't execute the code: " ++ e
    | none => str ""
  | none => str "I found code-related keywords but couldn't extract the code. Please provide the code in a code block (```)."

/-- Anchored attempt of `calculate\s+(digits spaces op spaces digits)`
(case-insensitive): the expression extracted after the word calculate. -/
def calcExprAt (s : Str) : Option Str :=
  if startsWithCI s (str "calculate") then
    let r := s.drop 9
    if (r.takeWhile isSpace).isEmpty then none
    else arithCapAt (r.dropWhile isSpace)
  else none

def extractCalcExpr (m : Str) : Option Str := firstSome calcExprAt m

/-- The expression chosen by the calculation branch: the first bare
arithmetic pattern, else the pattern after the word calculate. -/
def calcExpression (m : Str) : Option Str :=
  match extractArith m with
  | some e => some e
  | none =>
    if containsStr (lower m) (str "calculate") then extractCalcExpr m else none

/-- The calculation branch; note the source reads `result.result` without a
success check. -/
def calcBranch (env : SimpleEnv) (m : Str) : Str :=
  match calcExpression m with
  | some e =>
    match findToolByName env.reg (str "calculate") with
    | some t =>
      match (do
        let r ← t.execute (.jobj [(str "expression", .jstr e)])
        let v ← fieldOf r (str "result")
        pure (str "The result of " ++ e ++ str " is " ++ displayJ v) : Except Str Str) with
      | .ok s => s
      | .error err => str "I couldn't calculate that: " ++ err
    | none => str ""
  | none => str "I couldn't find a valid calculation expression in your message."

/-- The weather branch, using the weather-location extraction; when the
location regex fails the source has no else and the response stays empty. -/
def weatherBranch (env : SimpleEnv) (m : Str) : Str :=
  match extractLocation m with
  | some loc =>
    match findToolByName env.reg (str "get_weather") with
    | some t =>
      match (do
        let r ← t.execute (.jobj [(str "location", .jstr loc)])
        let temp ← fieldOf r (str "temperature")
        let unit ← fieldOf r (str "unit")
        let cond ← fieldOf r (str "condition")
        let hum ← fieldOf r (str "humidity")
        let wind ← fieldOf r (str "windSpeed")
        pure (str "The weather in " ++ loc ++ str " is " ++ displayJ temp ++
          str "°" ++ displayJ unit ++ str ", " ++ displayJ cond ++
          str ". Humidity: " ++ displayJ hum ++ str ", Wind: " ++ displayJ wind) :
          Except Str Str) with
      | .ok s => s
      | .error e => str "I couldn't get the weather for " ++ loc ++ str ": " ++ e
    | none => str ""
  | none => str ""

/-- The body of `runAgent` inside the outer try: the guard cascade; only
the general branch's model call can raise. -/
def runAgentBody (env : SimpleEnv) (m : Str) : Except Str Str :=
  if needsFileSearch m then pure (fileBranch env m)
  else if needsWebSearch m then pure (webBranch env m)
  else if needsCodeInterpreter m then pure (codeBranch env m)
  else if needsCalculation m then pure (calcBranch env m)
  else if needsWeather m then pure (weatherBranch env m)
  else env.modelInvoke m

def apologyPrefix : Str := str "I apologize, but I encountered an error: "

/-- `SimpleAgent.runAgent`: the outer catch converts an escaping exception
into an apology response with the `error` field set. -/
def simpleRunAgent (env : SimpleEnv) (m : Str) : SimpleResp :=
  match runAgentBody env m with
  | .ok resp => ⟨resp, none⟩
  | .error e => ⟨apologyPrefix ++ e, some e⟩

/-! ### Concrete instances used by the theorems below -/

/-- An upstream response whose tool-call batch contains an entry of an
unrecognized kind and no `function` payload. -/
def badToolCallResponse : JVal :=
  .jobj [(str "output", .jarr [
    .jobj [(str "type", .jstr (str "tool_calls")),
           (str "tool_calls", .jarr [.jobj [(str "type", .jstr (str "mystery_call"))]])]])]

/-- A workflow handler that always succeeds (collaborator stub for tests). -/
def wfOk : JVal → Except Str JVal := fun _ => .ok .jnull

/-- Registry with a working calculator, for the unknown-tool batch test. -/
def c4Reg : ToolRegistry :=
  ⟨[(str "calculate", calculatorToolM (fun _ => some 345))]⟩

/-- A batch with one valid and one unknown tool name. -/
def c4Batch : List ToolCallIn :=
  [⟨str "calculate", .jobj [(str "expression", .jstr (str "15 * 23"))]⟩,
   ⟨str "mystery_tool", .jobj []⟩]

/-- Registry with a calculator whose `eval` throws (`evalFn` is `none`, as
JavaScript `eval` does on the syntax error `(`) and a working weather tool. -/
def c5Reg : ToolRegistry :=
  ⟨[(str "calculate", calculatorToolM (fun _ => none)),
    (str "get_weather", weatherToolM)]⟩

/-- A batch whose first call makes its executor throw and whose second call
would succeed. -/
def c5Batch : List ToolCallIn :=
  [⟨str "calculate", .jobj [(str "expression", .jstr (str "("))]⟩,
   ⟨str "get_weather", .jobj [(str "location", .jstr (str "Tokyo"))]⟩]

/-- The declaration sent upstream for the weather tool by `buildTools`. -/
def getWeatherDecl : JVal :=
  (buildRegistryTools ⟨[(str "get_weather", weatherToolM)]⟩).headD .jvoid

/-- A weather tool whose executor rejects. -/
def boomTool : Tool :=
  ⟨str "get_weather", str "Get the current weather information for a specific location",
   weatherJsonSchema, fun _ => .error (str "boom")⟩

/-- Environment in which the registered weather executor throws. -/
def boomEnv : SimpleEnv :=
  ⟨⟨[(str "get_weather", boomTool)]⟩, fun _ => .ok (str "hi"),
   fun _ => none, fun _ => none⟩

/-! ## Helper lemmas -/

theorem startsWith_append_self (n t : Str) : startsWith (n ++ t) n = true := by
  induction n with
  | nil => cases t <;> rfl
  | cons c cs ih => simp [startsWith, ih]

theorem containsStr_of_startsWith {t n : Str} (h : startsWith t n = true) :
    containsStr t n = true := by
  cases t with
  | nil =>
    cases n with
    | nil => rfl
    | cons d ds => simp [startsWith] at h
  | cons c cs => simp [containsStr, h]

theorem containsStr_append_right {t n : Str} (a : Str) (h : containsStr t n = true) :
    containsStr (a ++ t) n = true := by
  induction a with
  | nil => simpa using h
  | cons c cs ih => simp [containsStr, ih]

theorem lower_append (a b : Str) : lower (a ++ b) = lower a ++ lower b := by
  simp [lower]

/-- Occurrence count of a key, used to state that a registry holds exactly
one entry under a name. -/
def countKey (n : Str) (l : List Str) : Nat :=
  (l.filter fun k => k = n).length

theorem countKey_nil (n : Str) : countKey n [] = 0 := rfl

theorem countKey_append (n : Str) (a b : List Str) :
    countKey n (a ++ b) = countKey n a + countKey n b := by
  simp [countKey, List.filter_append]

theorem countKey_eq_zero_of_not_mem {n : Str} {l : List Str} (h : n ∉ l) :
    countKey n l = 0 := by
  induction l with
  | nil => rfl
  | cons a l' ih =>
    have h1 : ¬(a = n) := fun hh => h (hh ▸ List.mem_cons_self a l')
    have h2 : n ∉ l' := fun hh => h (List.mem_cons_of_mem a hh)
    simp [countKey, h1] at ih ⊢
    exact ih h2

theorem countKey_eq_one_of_nodup_mem {n : Str} {l : List Str}
    (hnd : l.Nodup) (hm : n ∈ l) : countKey n l = 1 := by
  induction l with
  | nil => cases hm
  | cons a l' ih =>
    rcases List.mem_cons.mp hm with h | h
    · subst h
      have hnot : n ∉ l' := (List.nodup_cons.mp hnd).1
      have h0 := countKey_eq_zero_of_not_mem hnot
      simp [countKey] at h0 ⊢
      exact h0
    · have hne : ¬(a = n) := by
        intro hh
        exact (List.nodup_cons.mp hnd).1 (hh ▸ h)
      have := ih (List.nodup_cons.mp hnd).2 h
      simp [countKey, hne] at this ⊢
      exact this

theorem mapGet_mapSet_self (k : Str) (v : Tool) (l : List (Str × Tool)) :
    mapGet k (mapSet k v l) = some v := by
  induction l with
  | nil =>
    show mapGet k [(k, v)] = some v
    simp [mapGet]
  | cons p rest ih =>
    cases p with
    | mk k' v' =>
      by_cases h : k' = k
      · have hL : mapSet k v ((k', v') :: rest) = (k, v) :: rest := by
          simp [mapSet, h]
        rw [hL]
        simp [mapGet]
      · have hL : mapSet k v ((k', v') :: rest) = (k', v') :: mapSet k v rest := by
          simp [mapSet, h]
        rw [hL]
        show (if k' = k then some v' else mapGet k (mapSet k v rest)) = some v
        rw [if_neg h, ih]

theorem keys_mapSet (k : Str) (v : Tool) (l : List (Str × Tool)) :
    (mapSet k v l).map Prod.fst =
      if k ∈ l.map Prod.fst then l.map Prod.fst else l.map Prod.fst ++ [k] := by
  induction l with
  | nil => simp [mapSet]
  | cons p rest ih =>
    cases p with
    | mk k' v' =>
      by_cases h : k' = k
      · have hL : mapSet k v ((k', v') :: rest) = (k, v) :: rest := by
          simp [mapSet, h]
        have hmem : k ∈ ((k', v') :: rest).map Prod.fst := by
          rw [List.map_cons]
          exact List.mem_cons.mpr (Or.inl h.symm)
        rw [hL, if_pos hmem, List.map_cons, List.map_cons, h]
      · have hL : mapSet k v ((k', v') :: rest) = (k', v') :: mapSet k v rest := by
          simp [mapSet, h]
        by_cases hm : k ∈ rest.map Prod.fst
        · have hmem : k ∈ ((k', v') :: rest).map Prod.fst := by
            rw [List.map_cons]
            exact List.mem_cons_of_mem _ hm
          rw [hL, if_pos hmem, List.map_cons, List.map_cons, ih, if_pos hm]
        · have hnot : k ∉ ((k', v') :: rest).map Prod.fst := by
            rw [List.map_cons]
            intro hcc
            rcases List.mem_cons.mp hcc with hh | hh
            · exact h hh.symm
            · exact hm hh
          rw [hL, if_neg hnot, List.map_cons, List.map_cons, ih, if_neg hm,
            List.cons_append]

theorem mem_keys_mapSet (k : Str) (v : Tool) (l : List (Str × Tool)) :
    k ∈ (mapSet k v l).map Prod.fst := by
  rw [keys_mapSet]
  by_cases h : k ∈ l.map Prod.fst
  · rw [if_pos h]; exact h
  · rw [if_neg h]; exact List.mem_append_right _ (List.mem_singleton.mpr rfl)

/-- Unfolded form of `resolveStep` at an unresolved name. -/
theorem resolveStep_unknown {reg : ToolRegistry} (wf sf : JVal → Except Str JVal)
    {tc : ToolCallIn} (h : unknownName reg tc.name) :
    resolveStep reg wf sf tc = .ok (unknownToolResult tc.name) := by
  obtain ⟨h0, h1, h2, h3, h4, h5⟩ := h
  simp only [resolveStep, h0]
  simp only [h1, h2, h3, h4, h5, if_neg, if_false]
  rfl

theorem runToolLoop_cons_ok {reg : ToolRegistry} {wf sf : JVal → Except Str JVal}
    {tc : ToolCallIn} {rest : List ToolCallIn} {v : JVal} {rs : List JVal}
    (hv : resolveStep reg wf sf tc = .ok v)
    (hrs : runToolLoop reg wf sf rest = .ok rs) :
    runToolLoop reg wf sf (tc :: rest) = .ok (v :: rs) := by
  simp only [runToolLoop, hv, hrs]
  rfl

/-! ## The claims -/

/-- C2.  The lazily memoized remote-resource handle of
`ResponsesClient.getContainer` is an unguarded check-then-act: when two
first calls interleave (both check before either stores), the collaborator
create call is issued twice and the two calls return different handles,
refuting at-most-once provisioning; a sequential schedule provisions once. -/
theorem lazy_init_race_double_provision :
    (runSched initWorld [true, false, true, false]).mem.createCount = 2 ∧
    (runSched initWorld [true, false, true, false]).t1 = .finished 0 ∧
    (runSched initWorld [true, false, true, false]).t2 = .finished 1 ∧
    (runSched initWorld [true, true, false, false]).mem.createCount = 1 :=
  ⟨rfl, rfl, rfl, rfl⟩

/-- C3.  `parseResponse` throws (models the TypeError from reading `name`
of `undefined`) on a tool-call entry whose kind is unrecognized and which
has no `function` payload, instead of degrading to a no-content result; an
empty response does degrade to the explicit no-content string. -/
theorem parse_unrecognized_kind_throws :
    parseResponse (fun _ => none) badToolCallResponse =
      .error (str "TypeError: cannot read properties of undefined") ∧
    parseResponse (fun _ => none) (.jobj []) =
      .ok ⟨.jstr (str "No response from OpenAI"), [], none, str "empty"⟩ :=
  ⟨rfl, rfl⟩

/-- C4.  In the tool-resolution loop, provided every call's resolution
completes (no executor throws), the loop returns one result per call in
order, and a call whose name resolves in neither the registry, the
workflow table, nor the hosted table gets exactly the inline unknown-tool
error object while its siblings still execute and the request returns
normally. -/
theorem unknown_tool_inline_error (reg : ToolRegistry) (wf sf : JVal → Except Str JVal)
    (batch : List ToolCallIn)
    (hok : ∀ tc ∈ batch, ∃ v, resolveStep reg wf sf tc = .ok v) :
    ∃ results, runToolLoop reg wf sf batch = .ok results ∧
      List.Forall₂ (fun tc r => resolveStep reg wf sf tc = .ok r ∧
        (unknownName reg tc.name → r = unknownToolResult tc.name)) batch results := by
  induction batch with
  | nil => exact ⟨[], rfl, .nil⟩
  | cons tc rest ih =>
    obtain ⟨v, hv⟩ := hok tc (List.mem_cons_self _ _)
    obtain ⟨rs, hrs, hf⟩ := ih (fun t ht => hok t (List.mem_cons_of_mem _ ht))
    refine ⟨v :: rs, runToolLoop_cons_ok hv hrs, .cons ⟨hv, ?_⟩ hf⟩
    intro hu
    exact Except.ok.inj (hv.symm.trans (resolveStep_unknown wf sf hu))

/-- Witness for C4: a batch with one valid calculator call and one unknown
name yields two results, the second being the inline unknown-tool error. -/
theorem unknown_tool_inline_error_witness :
    ∃ results, runToolLoop c4Reg wfOk wfOk c4Batch = .ok results ∧
      List.Forall₂ (fun tc r => resolveStep c4Reg wfOk wfOk tc = .ok r ∧
        (unknownName c4Reg tc.name → r = unknownToolResult tc.name)) c4Batch results := by
  apply unknown_tool_inline_error
  intro tc htc
  simp only [c4Batch, List.mem_cons, List.not_mem_nil, or_false] at htc
  rcases htc with h | h
  · subst h; exact ⟨_, rfl⟩
  · subst h; exact ⟨_, rfl⟩

/-- C5.  A registered executor that throws is not caught by the
orchestration loop: the calculator rejecting on a bad expression aborts the
whole batch with the exception, producing no serialized failure entry and
never reaching the sibling weather call, which on its own would succeed. -/
theorem executor_throw_aborts_batch :
    resolveStep c5Reg wfOk wfOk
        ⟨str "get_weather", .jobj [(str "location", .jstr (str "Tokyo"))]⟩ =
      .ok (weatherPayload (str "Tokyo") (str "fahrenheit")) ∧
    runToolLoop c5Reg wfOk wfOk c5Batch =
      .error (str "Invalid mathematical expression: (") :=
  ⟨rfl, rfl⟩

/-- C7.  Registering a capability twice under one name leaves exactly one
entry under that name and `get` returns the second capability
(JavaScript `Map.set` semantics: last registration wins). -/
theorem register_twice_last_wins (r : ToolRegistry) (t1 t2 : Tool)
    (hname : t1.name = t2.name) (hnd : (r.tools.map Prod.fst).Nodup) :
    ((r.register t1).register t2).get t1.name = some t2 ∧
    countKey t1.name (((r.register t1).register t2).tools.map Prod.fst) = 1 := by
  constructor
  · show mapGet t1.name (mapSet t2.name t2 (mapSet t1.name t1 r.tools)) = some t2
    rw [hname]
    exact mapGet_mapSet_self _ _ _
  · show countKey t1.name ((mapSet t2.name t2 (mapSet t1.name t1 r.tools)).map Prod.fst) = 1
    rw [hname]
    rw [keys_mapSet, if_pos (mem_keys_mapSet _ _ _), keys_mapSet]
    by_cases h : t2.name ∈ r.tools.map Prod.fst
    · rw [if_pos h]
      exact countKey_eq_one_of_nodup_mem hnd h
    · rw [if_neg h, countKey_append, countKey_eq_zero_of_not_mem h]
      simp [countKey]

/-- Witness for C7: registering two calculators in an empty registry. -/
theorem register_twice_last_wins_witness :
    (((ToolRegistry.mk []).register (calculatorToolM fun _ => none)).register
        (calculatorToolM fun _ => some 0)).get (calculatorToolM fun _ => none).name =
      some (calculatorToolM fun _ => some 0) ∧
    countKey (calculatorToolM fun _ => none).name
      ((((ToolRegistry.mk []).register (calculatorToolM fun _ => none)).register
        (calculatorToolM fun _ => some 0)).tools.map Prod.fst) = 1 :=
  register_twice_last_wins ⟨[]⟩ (calculatorToolM fun _ => none)
    (calculatorToolM fun _ => some 0) rfl (by simp)

/-- C8.  The weather tool's declared schema, as sent by `buildTools`, does
carry `additionalProperties: false` (added by `fixSchemaForResponses`) but
its `required` array lists only `location` while `unit` is also a declared
property, so not every property is required even though the declaration is
marked strict. -/
theorem weather_schema_not_strict_compliant :
    addlPropsFalse (paramsOf getWeatherDecl) = true ∧
    propNames (paramsOf getWeatherDecl) = [str "location", str "unit"] ∧
    requiredNames (paramsOf getWeatherDecl) = [str "location"] ∧
    allPropsRequired (paramsOf getWeatherDecl) = false :=
  ⟨rfl, rfl, rfl, rfl⟩

set_option maxHeartbeats 1600000 in
/-- C9.  Each optional generation parameter appears as a key of the
outbound payload exactly when the caller provided it, carrying the caller's
value; an absent option contributes no key at all. -/
theorem optional_params_passthrough (message model : Str) (tools : List JVal)
    (o : AgentOptions) :
    jlookup (str "temperature")
      (askPayload model (buildAgentRequest message o) tools) = o.temperature ∧
    jlookup (str "max_output_tokens")
      (askPayload model (buildAgentRequest message o) tools) = o.maxOutputTokens ∧
    jlookup (str "top_p")
      (askPayload model (buildAgentRequest message o) tools) = o.topP ∧
    jlookup (str "top_logprobs")
      (askPayload model (buildAgentRequest message o) tools) = o.topLogprobs ∧
    jlookup (str "parallel_tool_calls")
      (askPayload model (buildAgentRequest message o) tools) =
        o.parallelToolCalls.map JVal.jbool := by
  obtain ⟨t, mx, tp, tl, pc, so⟩ := o
  cases t <;> cases mx <;> cases tp <;> cases tl <;> cases pc <;> cases so <;>
    exact ⟨rfl, rfl, rfl, rfl, rfl⟩

/-- C10 (amended).  `SimpleAgent.runAgent` always resolves with a response:
when the body completes, the `error` field is empty; when an exception
escapes the branches (only the model call can), the outer catch produces
the apology text carrying the error message and sets the `error` field. -/
theorem simple_agent_never_rejects (env : SimpleEnv) (m : Str) :
    (∃ v, runAgentBody env m = .ok v ∧ simpleRunAgent env m = ⟨v, none⟩) ∨
    (∃ e, runAgentBody env m = .error e ∧
      simpleRunAgent env m = ⟨apologyPrefix ++ e, some e⟩) := by
  cases h : runAgentBody env m with
  | ok v => exact .inl ⟨v, rfl, by simp [simpleRunAgent, h]⟩
  | error e => exact .inr ⟨e, rfl, by simp [simpleRunAgent, h]⟩

/-- C10 (counterexample).  A registered weather executor that rejects is
caught inside the weather branch: the run resolves with the error message
in the text but the `error` field is NOT set, refuting the claim that any
exception raised inside the run sets the `error` field. -/
theorem simple_agent_inner_catch_counterexample :
    boomTool.execute (.jobj [(str "location", .jstr (str "Tokyo"))]) =
      .error (str "boom") ∧
    (simpleRunAgent boomEnv (str "weather in Tokyo")).error = none ∧
    containsStr (simpleRunAgent boomEnv (str "weather in Tokyo")).response
      (str "boom") = true :=
  ⟨rfl, rfl, rfl⟩

/-! ## Lemmas for the dispatcher claims -/

theorem firstSome_append_skip (f : Str → Option Str) (pre rest : Str)
    (h : ∀ i, i < pre.length → f ((pre ++ rest).drop i) = none) :
    firstSome f (pre ++ rest) = firstSome f rest := by
  induction pre with
  | nil => rfl
  | cons c cs ih =>
    have h0 := h 0 (by simp)
    simp only [List.cons_append, List.drop_zero] at h0
    show (match f (c :: (cs ++ rest)) with
          | some r => some r
          | none => firstSome f (cs ++ rest)) = firstSome f rest
    rw [h0]
    exact ih fun i hi => by
      have := h (i + 1) (by simpa using Nat.succ_lt_succ hi)
      simpa using this

theorem matchTail_not_space {s : Str}
    (h : ∀ c, s.head? = some c → isSpace c = false) :
    matchTail s = none := by
  cases s with
  | nil => rfl
  | cons c cs =>
    have := h c rfl
    simp [matchTail, this]

theorem takeNonPeriod_cons_of_ne {b : Char} (bs : Str) (hdot : ¬(b = '.')) :
    takeNonPeriod (b :: bs) = b :: takeNonPeriod bs := by
  simp [takeNonPeriod, hdot]

theorem tryGC_isSome_of_head (bs : Str) {b : Char} (hdot : ¬(b = '.')) :
    ∃ r, tryGC (b :: bs) = some r := by
  cases htg : tryG (b :: bs) with
  | some r => exact ⟨r, by simp [tryGC, htg]⟩
  | none =>
    refine ⟨takeNonPeriod (b :: bs), ?_⟩
    simp [tryGC, htg, capC, takeNonPeriod_cons_of_ne bs hdot]

theorem matchTail_spaces (sp body r : Str)
    (hsp : ∀ c ∈ sp, isSpace c = true) (hne : sp ≠ [])
    (hhead : ∀ c, body.head? = some c → isSpace c = false)
    (hGC : tryGC body = some r) :
    matchTail (sp ++ body) = some r := by
  induction sp with
  | nil => cases hne rfl
  | cons s sp' ih =>
    have hs : isSpace s = true := hsp s (List.mem_cons_self _ _)
    cases sp' with
    | nil =>
      have hmb : matchTail body = none := matchTail_not_space hhead
      show matchTail (s :: body) = some r
      simp [matchTail, hs, hmb, hGC]
    | cons s2 sp'' =>
      have ih' := ih (fun c hc => hsp c (List.mem_cons_of_mem _ hc)) (by simp)
      have hun : matchTail (s :: ((s2 :: sp'') ++ body)) =
          (if isSpace s = true then
            (match matchTail ((s2 :: sp'') ++ body) with
             | some x => some x
             | none => tryGC ((s2 :: sp'') ++ body))
          else none) := rfl
      show matchTail (s :: ((s2 :: sp'') ++ body)) = some r
      rw [hun, ih', if_pos hs]

theorem startsWithCI_append_self (n t : Str) (h : ∀ c ∈ n, c.toLower = c) :
    startsWithCI (n ++ t) n = true := by
  induction n with
  | nil => cases t <;> rfl
  | cons c cs ih =>
    have hc : c.toLower = c := h c (List.mem_cons_self _ _)
    simp [startsWithCI, hc, ih fun d hd => h d (List.mem_cons_of_mem _ hd)]

theorem weatherLocAt_decomp (sp body r : Str)
    (hsp : ∀ c ∈ sp, isSpace c = true) (hne : sp ≠ [])
    (hhead : ∀ c, body.head? = some c → isSpace c = false)
    (hGC : tryGC body = some r) :
    weatherLocAt (str "weather" ++ (sp ++ body)) = some r := by
  have h1 : startsWithCI (str "weather" ++ (sp ++ body)) (str "weather") = true :=
    startsWithCI_append_self (str "weather") (sp ++ body) (by decide)
  have h2 : (str "weather" ++ (sp ++ body)).drop 7 = sp ++ body := rfl
  simp only [weatherLocAt, h1, if_true, h2]
  exact matchTail_spaces sp body r hsp hne hhead hGC

theorem needsWeather_mid (pre tail : Str) :
    needsWeather (pre ++ (str "weather" ++ tail)) = true := by
  have h1 : containsStr (lower (str "weather" ++ tail)) (str "weather") = true := by
    have e : lower (str "weather" ++ tail) = str "weather" ++ lower tail := by
      rw [lower_append]; rfl
    rw [e]
    exact containsStr_of_startsWith (startsWith_append_self _ _)
  have h2 : containsStr (lower (pre ++ (str "weather" ++ tail))) (str "weather") = true := by
    rw [lower_append]
    exact containsStr_append_right _ h1
  simp [needsWeather, h2]

theorem classify_weather_of_guards {m : Str} (hfs : needsFileSearch m = false)
    (hws : needsWebSearch m = false) (hci : needsCodeInterpreter m = false)
    (hcal : needsCalculation m = false) (hw : needsWeather m = true) :
    classify m = Intent.weather := by
  simp [classify, hfs, hws, hci, hcal, hw]

/-- C1 (counterexample).  The message contains "weather" and no file- or
web-search cue, yet the dispatcher does not select the weather intent: the
code-interpreter guard ("code") fires first in the cascade. -/
theorem weather_intent_counterexample :
    needsWeather (str "weather code") = true ∧
    needsFileSearch (str "weather code") = false ∧
    needsWebSearch (str "weather code") = false ∧
    ¬(classify (str "weather code") = Intent.weather) := by
  exact ⟨by decide, by decide, by decide, by decide⟩

/-- C1 (amended).  For a message whose first weather-pattern match sits at
the boundary `pre ++ "weather" ++ sp ++ body` (whitespace `sp`, `body`
starting with a non-space non-period character), if none of the four
earlier guards fires the dispatcher selects the weather intent, and the
extracted location is the capture of `weather\s+(?:in\s+)?([^.]+)`
trimmed; when `body` does not start with "in" (case-insensitively) this is
exactly the text after "weather" up to the first period, trimmed. -/
theorem weather_intent_amended (pre sp : Str) (b : Char) (bs : Str)
    (hpre : ∀ i, i < pre.length →
      weatherLocAt ((pre ++ (str "weather" ++ (sp ++ (b :: bs)))).drop i) = none)
    (hsp : ∀ c ∈ sp, isSpace c = true) (hspne : sp ≠ [])
    (hbs : isSpace b = false) (hbd : ¬(b = '.'))
    (hfs : needsFileSearch (pre ++ (str "weather" ++ (sp ++ (b :: bs)))) = false)
    (hws : needsWebSearch (pre ++ (str "weather" ++ (sp ++ (b :: bs)))) = false)
    (hci : needsCodeInterpreter (pre ++ (str "weather" ++ (sp ++ (b :: bs)))) = false)
    (hcal : needsCalculation (pre ++ (str "weather" ++ (sp ++ (b :: bs)))) = false) :
    classify (pre ++ (str "weather" ++ (sp ++ (b :: bs)))) = Intent.weather ∧
    extractLocation (pre ++ (str "weather" ++ (sp ++ (b :: bs)))) =
      (tryGC (b :: bs)).map trim ∧
    (startsWithCI (b :: bs) (str "in") = false →
      extractLocation (pre ++ (str "weather" ++ (sp ++ (b :: bs)))) =
        some (trim (takeNonPeriod (b :: bs)))) := by
  have hhead : ∀ c, (b :: bs).head? = some c → isSpace c = false := by
    intro c hc
    cases hc
    exact hbs
  obtain ⟨r, hGC⟩ := tryGC_isSome_of_head bs hbd
  have hw : needsWeather (pre ++ (str "weather" ++ (sp ++ (b :: bs)))) = true :=
    needsWeather_mid pre (sp ++ (b :: bs))
  have hcls := classify_weather_of_guards hfs hws hci hcal hw
  have hend : weatherLocAt (str "weather" ++ (sp ++ (b :: bs))) = some r :=
    weatherLocAt_decomp sp (b :: bs) r hsp hspne hhead hGC
  have hscan : firstSome weatherLocAt (pre ++ (str "weather" ++ (sp ++ (b :: bs)))) =
      firstSome weatherLocAt (str "weather" ++ (sp ++ (b :: bs))) :=
    firstSome_append_skip _ pre _ hpre
  have hfs2 : firstSome weatherLocAt (str "weather" ++ (sp ++ (b :: bs))) = some r := by
    show (match weatherLocAt ('w' :: (str "eather" ++ (sp ++ (b :: bs)))) with
          | some x => some x
          | none => firstSome weatherLocAt (str "eather" ++ (sp ++ (b :: bs)))) = some r
    rw [show ('w' :: (str "eather" ++ (sp ++ (b :: bs)))) =
          str "weather" ++ (sp ++ (b :: bs)) from rfl, hend]
  have hloc : extractLocation (pre ++ (str "weather" ++ (sp ++ (b :: bs)))) =
      some (trim r) := by
    show (firstSome weatherLocAt (pre ++ (str "weather" ++ (sp ++ (b :: bs))))).map trim =
      some (trim r)
    rw [hscan, hfs2]
    rfl
  refine ⟨hcls, ?_, ?_⟩
  · rw [hloc, hGC]
    rfl
  · intro hni
    have htg : tryG (b :: bs) = none := by simp [tryG, hni]
    have hcap : tryGC (b :: bs) = capC (b :: bs) := by
      simp [tryGC, htg]
    have hcap2 : capC (b :: bs) = some (takeNonPeriod (b :: bs)) := by
      simp [capC, takeNonPeriod_cons_of_ne bs hbd]
    have hr : r = takeNonPeriod (b :: bs) := by
      have := hGC.symm.trans (hcap.trans hcap2)
      exact Option.some.inj this
    rw [hloc, hr]

/-- Witness for C1 (amended): the message "weather Tokyo". -/
theorem weather_intent_amended_witness :
    classify ([] ++ (str "weather" ++ ([' '] ++ ('T' :: str "okyo")))) = Intent.weather ∧
    extractLocation ([] ++ (str "weather" ++ ([' '] ++ ('T' :: str "okyo")))) =
      (tryGC ('T' :: str "okyo")).map trim ∧
    (startsWithCI ('T' :: str "okyo") (str "in") = false →
      extractLocation ([] ++ (str "weather" ++ ([' '] ++ ('T' :: str "okyo")))) =
        some (trim (takeNonPeriod ('T' :: str "okyo")))) :=
  weather_intent_amended [] [' '] 'T' (str "okyo")
    (fun i hi => absurd hi (Nat.not_lt_zero i))
    (by decide) (by decide) (by decide) (by decide)
    (by decide) (by decide) (by decide) (by decide)

theorem startsWith_nil (t : Str) : startsWith t [] = true := by
  cases t <;> rfl

theorem dropWhile_word_start (tag rest : Str) (h : ∀ c ∈ tag, isWordChar c = true) :
    (tag ++ '\n' :: rest).dropWhile isWordChar = '\n' :: rest := by
  induction tag with
  | nil =>
    show List.dropWhile isWordChar ('\n' :: rest) = '\n' :: rest
    have hnl : isWordChar '\n' = false := rfl
    simp [List.dropWhile_cons, hnl]
  | cons c cs ih =>
    have hc : isWordChar c = true := h c (List.mem_cons_self _ _)
    show List.dropWhile isWordChar (c :: (cs ++ '\n' :: rest)) = '\n' :: rest
    simp [List.dropWhile_cons, hc, ih fun d hd => h d (List.mem_cons_of_mem _ hd)]

theorem startsWith_nl3_false (b : Char) (bs rest : Str)
    (hno : containsStr (b :: bs) (str "\n```") = false) :
    startsWith ((b :: bs) ++ (str "\n```" ++ rest)) (str "\n```") = false := by
  have hsw : startsWith (b :: bs) (str "\n```") = false := by
    have h := hno
    rw [containsStr] at h
    exact (Bool.or_eq_false_iff.mp h).1
  have e1 : (('\n' : Char) == '`') = false := rfl
  match bs with
  | [] =>
    show startsWith (b :: ('\n' :: ('`' :: ('`' :: ('`' :: rest))))) (str "\n```") = false
    simp [startsWith, e1]
  | [c1] =>
    show startsWith (b :: (c1 :: ('\n' :: ('`' :: ('`' :: ('`' :: rest)))))) (str "\n```") = false
    simp [startsWith, e1]
  | [c1, c2] =>
    show startsWith (b :: (c1 :: (c2 :: ('\n' :: ('`' :: ('`' :: ('`' :: rest))))))) (str "\n```") = false
    simp [startsWith, e1]
  | c1 :: c2 :: c3 :: bs' =>
    have heq : startsWith ((b :: c1 :: c2 :: c3 :: bs') ++ (str "\n```" ++ rest)) (str "\n```") =
        startsWith (b :: c1 :: c2 :: c3 :: bs') (str "\n```") := by
      show ((b == '\n') && ((c1 == '`') && ((c2 == '`') && ((c3 == '`') &&
            startsWith (bs' ++ (str "\n```" ++ rest)) [])))) =
          ((b == '\n') && ((c1 == '`') && ((c2 == '`') && ((c3 == '`') &&
            startsWith bs' []))))
      rw [startsWith_nil, startsWith_nil]
    rw [heq]
    exact hsw

theorem findBody_boundary (body rest : Str)
    (hno : containsStr body (str "\n```") = false) :
    findBody (body ++ (str "\n```" ++ rest)) = some body := by
  induction body with
  | nil =>
    have h1 : startsWith (str "\n```" ++ rest) (str "\n```") = true :=
      startsWith_append_self _ _
    have h1' : startsWith ('\n' :: (str "```" ++ rest)) (str "\n```") = true := h1
    show findBody ('\n' :: (str "```" ++ rest)) = some []
    simp [findBody, h1']
  | cons c cs ih =>
    have h := hno
    rw [containsStr] at h
    obtain ⟨h1, h2⟩ := Bool.or_eq_false_iff.mp h
    have hfalse : startsWith ((c :: cs) ++ (str "\n```" ++ rest)) (str "\n```") = false :=
      startsWith_nl3_false c cs rest hno
    have hfalse' : startsWith (c :: (cs ++ (str "\n```" ++ rest))) (str "\n```") = false :=
      hfalse
    show findBody (c :: (cs ++ (str "\n```" ++ rest))) = some (c :: cs)
    simp only [findBody, hfalse']
    rw [ih h2]
    rfl

theorem fenceAt_decomp (tag body rest : Str)
    (htag : ∀ c ∈ tag, isWordChar c = true)
    (hno : containsStr body (str "\n```") = false) :
    fenceAt (str "```" ++ (tag ++ '\n' :: (body ++ (str "\n```" ++ rest)))) = some body := by
  have h1 : startsWith
      (str "```" ++ (tag ++ '\n' :: (body ++ (str "\n```" ++ rest)))) (str "```") = true :=
    startsWith_append_self _ _
  have h2 : (str "```" ++ (tag ++ '\n' :: (body ++ (str "\n```" ++ rest)))).drop 3 =
      tag ++ '\n' :: (body ++ (str "\n```" ++ rest)) := rfl
  simp only [fenceAt, h1, if_true, h2]
  rw [dropWhile_word_start tag (body ++ (str "\n```" ++ rest)) htag]
  show findBody (body ++ (str "\n```" ++ rest)) = some body
  exact findBody_boundary body rest hno

theorem needsCode_of_fence (pre tail : Str) :
    needsCodeInterpreter (pre ++ (str "```" ++ tail)) = true := by
  have h : containsStr (pre ++ (str "```" ++ tail)) (str "```") = true :=
    containsStr_append_right _ (containsStr_of_startsWith (startsWith_append_self _ _))
  simp [needsCodeInterpreter, h]

/-- C6 (counterexample).  The message contains a fenced code block, yet the
dispatcher selects the file-search intent, not code execution: the
file-search guard ("find"/"file") precedes the code guard. -/
theorem code_fence_counterexample :
    extractCode (str "find file ```\nx\n```") = some (str "x") ∧
    classify (str "find file ```\nx\n```") = Intent.fileSearch ∧
    ¬(classify (str "find file ```\nx\n```") = Intent.codeRun) :=
  ⟨rfl, by decide, by decide⟩

/-- C6 (amended).  For a message whose first fence match sits at the
boundary `pre ++ "```" ++ tag ++ newline ++ body ++ newline-fence` (word
characters `tag`, `body` without a closing fence), if neither the
file-search nor the web-search guard fires the dispatcher selects the
code-execution intent and extracts exactly the fenced `body`, trimmed,
regardless of the leading language tag. -/
theorem code_fence_amended (pre tag body rest : Str)
    (hpre : ∀ i, i < pre.length →
      fenceAt ((pre ++ (str "```" ++ (tag ++ '\n' :: (body ++ (str "\n```" ++ rest))))).drop i) = none)
    (htag : ∀ c ∈ tag, isWordChar c = true)
    (hno : containsStr body (str "\n```") = false)
    (hfs : needsFileSearch
      (pre ++ (str "```" ++ (tag ++ '\n' :: (body ++ (str "\n```" ++ rest))))) = false)
    (hws : needsWebSearch
      (pre ++ (str "```" ++ (tag ++ '\n' :: (body ++ (str "\n```" ++ rest))))) = false) :
    classify (pre ++ (str "```" ++ (tag ++ '\n' :: (body ++ (str "\n```" ++ rest))))) =
      Intent.codeRun ∧
    extractCode (pre ++ (str "```" ++ (tag ++ '\n' :: (body ++ (str "\n```" ++ rest))))) =
      some (trim body) := by
  have hcode := needsCode_of_fence pre (tag ++ '\n' :: (body ++ (str "\n```" ++ rest)))
  constructor
  · simp [classify, hfs, hws, hcode]
  · have hend := fenceAt_decomp tag body rest htag hno
    have hscan := firstSome_append_skip fenceAt pre
      (str "```" ++ (tag ++ '\n' :: (body ++ (str "\n```" ++ rest)))) hpre
    have hfs2 : firstSome fenceAt
        (str "```" ++ (tag ++ '\n' :: (body ++ (str "\n```" ++ rest)))) = some body := by
      show (match fenceAt ('`' :: (str "``" ++ (tag ++ '\n' :: (body ++ (str "\n```" ++ rest))))) with
            | some x => some x
            | none => firstSome fenceAt
                (str "``" ++ (tag ++ '\n' :: (body ++ (str "\n```" ++ rest))))) = some body
      rw [show ('`' :: (str "``" ++ (tag ++ '\n' :: (body ++ (str "\n```" ++ rest))))) =
            str "```" ++ (tag ++ '\n' :: (body ++ (str "\n```" ++ rest))) from rfl, hend]
    show (firstSome fenceAt
      (pre ++ (str "```" ++ (tag ++ '\n' :: (body ++ (str "\n```" ++ rest)))))).map trim =
        some (trim body)
    rw [hscan, hfs2]
    rfl

/-- Witness for C6 (amended): the message with a tagged python block. -/
theorem code_fence_amended_witness :
    classify ([] ++ (str "```" ++ (str "python" ++ '\n' :: (str "print(1)" ++ (str "\n```" ++ []))))) =
      Intent.codeRun ∧
    extractCode ([] ++ (str "```" ++ (str "python" ++ '\n' :: (str "print(1)" ++ (str "\n```" ++ []))))) =
      some (trim (str "print(1)")) :=
  code_fence_amended [] (str "python") (str "print(1)") []
    (fun i hi => absurd hi (Nat.not_lt_zero i))
    (by decide) (by decide) (by decide) (by decide)
